import Mathlib

/-!
# Verification of the MCP-Enabled-Chatbot orchestration engine

Shallow embedding of the two source files of the repository:

* `mcp_chatbot_backend.py` — the LangGraph state machine (`ChatState`,
  `chat_node`, `route_after_chat`, the `tools` node, graph wiring) and the
  `add_messages` reducer semantics used by its `messages` channel.
* `app_flask.py` — the synchronous route layer (`chat`, `get_history`,
  `clear_thread`, `get_thread_id`, `run_async`).

Python message classes map to roles: `HumanMessage` ↔ `Role.user`,
`AIMessage` ↔ `Role.assistant`, `ToolMessage` ↔ `Role.tool`,
`SystemMessage` ↔ `Role.system`.  Message ids model the LangChain message
`id` field that `add_messages` keys its upsert on.
-/

namespace MCPChatbot

/-- Roles of LangChain messages, by class of the Python object. -/
inductive Role where
  | user
  | assistant
  | tool
  | system
deriving DecidableEq, Repr

/-- One pending tool call on an `AIMessage`: `{tool_name, arguments}`. -/
structure ToolCall where
  name : String
  args : String
deriving DecidableEq, Repr

/-- A LangChain message: id (the field `add_messages` upserts on), role
(the Python class), content, and the `tool_calls` list (meaningful on
`AIMessage`; empty elsewhere). -/
structure Message where
  id : Nat
  role : Role
  content : String
  tool_calls : List ToolCall
deriving DecidableEq, Repr

/-- One fold step of the `add_messages` reducer: if a message with the same
id is already present it is replaced in place, otherwise the new message is
appended at the end. -/
def upsertOne (msgs : List Message) (m : Message) : List Message :=
  if msgs.any (fun x => x.id = m.id) then
    msgs.map (fun x => if x.id = m.id then m else x)
  else
    msgs ++ [m]

/-- The `add_messages` reducer of `ChatState.messages`
(`Annotated[list[BaseMessage], add_messages]`, backend line 150): each
message of the update is upserted into the existing list.  The code never
constructs `RemoveMessage`, so deletion does not occur. -/
def add_messages (left right : List Message) : List Message :=
  right.foldl upsertOne left

/-- `get_history` (app_flask.py lines 136-143): maps over ALL persisted
messages, labelling a message "user" exactly when its Python class is
`HumanMessage` and "assistant" otherwise.  No message is dropped. -/
def get_history (msgs : List Message) : List (Role × String) :=
  msgs.map (fun m =>
    (if m.role = Role.user then Role.user else Role.assistant, m.content))

/-- Modelled from the spec (for comparison only, not from the source):
"history(thread_id) -> ordered sequence of {role, content} — derived by
filtering the ThreadState's Message sequence to user/assistant roles only." -/
def history_spec (msgs : List Message) : List (Role × String) :=
  (msgs.filter (fun m => m.role = Role.user ∨ m.role = Role.assistant)).map
    (fun m => (m.role, m.content))

/-- The system prompt (`SYSTEM_PROMPT`, backend lines 33-59): a
`SystemMessage` prepended to the history on every `chat_node` call, never
persisted.  The prompt body (an f-string over the working directory) is
elided: no claim depends on its text, only on its being prepended. -/
def SYSTEM_PROMPT : Message :=
  ⟨0, Role.system,
   "You are a helpful AI assistant with access to various tools through MCP servers.",
   []⟩

/-- The reasoning service's answer to one `llm_with_tools.ainvoke` call:
always an `AIMessage`, carrying content and a (possibly empty) list of
pending tool calls.  The service itself is opaque in the source (vendor
API, out of scope), so the engine definitions take it as a parameter. -/
structure LLMOut where
  content : String
  tool_calls : List ToolCall
deriving DecidableEq, Repr

/-- Graph nodes of `StateGraph(ChatState)` (backend lines 176-193):
`chat_node`, `tools`, and the terminal `END` (called `done` here). -/
inductive Node where
  | chat
  | tools
  | done
deriving DecidableEq, Repr

/-- `route_after_chat` (backend lines 180-185): looks at the LAST message of
the state; routes to `tools` when `hasattr(last, "tool_calls") and
last.tool_calls` holds — i.e. the message is an `AIMessage` (the only class
with the attribute) carrying a non-empty tool-call list — else to `END`.
In the source an empty message list would raise on `[-1]`; that branch is
unreachable because the route runs right after `chat_node` appended its
response. -/
def route_after_chat (msgs : List Message) : Node :=
  match msgs.getLast? with
  | some last =>
      if last.role = Role.assistant ∧ last.tool_calls ≠ [] then Node.tools
      else Node.done
  | none => Node.done

/-- An in-flight engine execution for one thread: the persisted message
list (`ChatState.messages`), the next unused message id (LangChain mints a
fresh unique id for every newly created message), and the node about to
run. -/
structure EngineConfig where
  msgs : List Message
  nextId : Nat
  node : Node
deriving DecidableEq, Repr

/-- Well-formedness: every persisted message id was minted earlier, i.e. is
below the next-fresh-id counter.  This is the freshness discipline the
LangChain message ids give the source. -/
def wf (c : EngineConfig) : Prop :=
  ∀ m ∈ c.msgs, m.id < c.nextId

/-- `chat_node` (backend lines 155-161): invoke the reasoning service on
`[SYSTEM_PROMPT] + state["messages"]`, return the single response message;
the `add_messages` channel merges it in, and the conditional edge
`route_after_chat` (backend lines 188-192) picks the next node from the
updated state. -/
def chatStep (llm : List Message → LLMOut) (c : EngineConfig) : EngineConfig :=
  let out := llm (SYSTEM_PROMPT :: c.msgs)
  let resp : Message := ⟨c.nextId, Role.assistant, out.content, out.tool_calls⟩
  let msgs' := add_messages c.msgs [resp]
  ⟨msgs', c.nextId + 1, route_after_chat msgs'⟩

/-- The tool-result messages `ToolNode` produces for the pending calls of
the last message: one `ToolMessage` per call, in call order, each with a
fresh id; `registry` is the capability lookup-and-invoke (unknown tools or
provider failures yield an error payload string, not a crash). -/
def toolResults (registry : ToolCall → String) (startId : Nat) :
    List ToolCall → List Message
  | [] => []
  | tc :: rest =>
      ⟨startId, Role.tool, registry tc, []⟩ ::
        toolResults registry (startId + 1) rest

/-- The `tools` node (`ToolNode(mcp_tools)`, backend lines 144 and 178)
plus its fixed outgoing edge `tools → chat_node` (backend line 193): append
one tool-result message per pending call of the last message, then return
to `chat_node`. -/
def toolsStep (registry : ToolCall → String) (c : EngineConfig) : EngineConfig :=
  match c.msgs.getLast? with
  | some last =>
      ⟨add_messages c.msgs (toolResults registry c.nextId last.tool_calls),
       c.nextId + last.tool_calls.length, Node.chat⟩
  | none => ⟨c.msgs, c.nextId, Node.chat⟩

/-- One transition of the compiled graph; `END` is terminal (stays put). -/
def graphStep (llm : List Message → LLMOut) (registry : ToolCall → String)
    (c : EngineConfig) : EngineConfig :=
  match c.node with
  | Node.chat => chatStep llm c
  | Node.tools => toolsStep registry c
  | Node.done => c

/-- The `START → chat_node` edge (backend line 187) together with the
`ainvoke` input `{"messages": [HumanMessage(content=user_text)]}`: the new
user message is merged into the persisted state and control enters
`chat_node`. -/
def startStep (userText : String) (c : EngineConfig) : EngineConfig :=
  ⟨add_messages c.msgs [⟨c.nextId, Role.user, userText, []⟩], c.nextId + 1,
   Node.chat⟩

/-- One `submit`/`ainvoke` call observed after `n` graph transitions:
append the user message, then step the graph `n` times. -/
def submitRun (llm : List Message → LLMOut) (registry : ToolCall → String)
    (userText : String) (n : Nat) (c : EngineConfig) : EngineConfig :=
  (graphStep llm registry)^[n] (startStep userText c)

/-- A reasoning service whose every response requests one more tool call:
the concrete input on which the unbounded `CHAT ⇄ TOOL_EXEC` loop of the
source diverges. -/
def llmLoop : List Message → LLMOut :=
  fun _ => ⟨"", [⟨"t", "\x7b\x7d"⟩]⟩

/-- A trivially succeeding capability registry for the divergence run. -/
def regLoop : ToolCall → String := fun _ => "ok"

/-- The engine configuration right after `START` appended the user message
of the divergence run. -/
def loopStart : EngineConfig := startStep "hi" ⟨[], 0, Node.done⟩

/-- Invariant of the divergence run: ids are fresh, one message was
appended per transition, and control keeps alternating between `chat_node`
and `tools` (when at `tools`, the last message is the assistant response
carrying the pending call). -/
def loopInv (n : Nat) (c : EngineConfig) : Prop :=
  wf c ∧ c.msgs.length = n + 1 ∧
    (c.node = Node.chat ∨
      (c.node = Node.tools ∧
        ∃ last, c.msgs.getLast? = some last ∧ last.role = Role.assistant ∧
          last.tool_calls = [⟨"t", "\x7b\x7d"⟩]))

/-! ## The Flask route layer (`app_flask.py`) -/

/-- The per-thread persisted history as the route layer sees it: the
checkpointer keyed by thread id. -/
def Store := String → List Message

/-- Python's `str.strip()` on the incoming message text: drop whitespace
from both ends (modelled over the character list so it evaluates). -/
def pyStrip (s : String) : String :=
  ⟨(((s.data.dropWhile Char.isWhitespace).reverse.dropWhile
      Char.isWhitespace).reverse)⟩

/-- One `/api/chat` request body: both fields optional in the JSON. -/
structure ChatRequest where
  message : Option String
  thread_id : Option String

/-- `get_thread_id` (app_flask lines 54-58): if the session has no
`thread_id`, store a freshly minted uuid (the `freshId` parameter) in it;
return the session's value.  Result: (updated session slot, chosen id). -/
def get_thread_id (sessionTid : Option String) (freshId : String) :
    Option String × String :=
  match sessionTid with
  | some t => (some t, t)
  | none => (some freshId, freshId)

/-- Thread-id selection in `chat` (app_flask line 72):
`data.get("thread_id") or get_thread_id()`.  Python `or` treats both a
missing field (None) and an empty string as falsy, falling back to the
session. -/
def chooseThreadId (reqTid : Option String) (sessionTid : Option String)
    (freshId : String) : Option String × String :=
  match reqTid with
  | some t =>
      if t = "" then get_thread_id sessionTid freshId else (sessionTid, t)
  | none => get_thread_id sessionTid freshId

/-- A value stored in the engine's result dict. -/
inductive StateValue where
  | msgList (l : List Message)
deriving DecidableEq

/-- The result dict of `chatbot.ainvoke`: the `ChatState` TypedDict, whose
ONLY key is `"messages"` (backend lines 149-150). -/
def stateDict (msgs : List Message) : List (String × StateValue) :=
  [("messages", StateValue.msgList msgs)]

/-- Python's `dict.get(key)`: the value when the key is present, `None`
otherwise. -/
def dictGet (d : List (String × StateValue)) (k : String) : Option StateValue :=
  (d.find? (fun p => p.1 = k)).map Prod.snd

/-- The JSON body (plus HTTP status) the `chat` route returns. -/
structure ChatResponse where
  success : Bool
  response : Option String
  thread_id : Option String
  discovered_username : Option StateValue
  error : Option String
  status : Nat

/-- The `chat` route handler (app_flask lines 67-102).  The engine
invocation (`bot.ainvoke` through `run_async`) is the opaque parameter
`engine`, mapping (store, thread id, user text) to (updated store, final
message list).  The handler: read and strip the message, pick the thread
id (this may mint and store a session id even when the request is later
rejected — the source computes it on line 72, before the emptiness check
on line 74), reject empty text with a 400 failure, otherwise invoke the
engine and answer with the last message's content, the thread id, and
`result.get("discovered_username")`.  An empty result list would raise on
`[-1]` and be caught by the `except` branch (500). -/
def chat_handler (engine : Store → String → String → Store × List Message)
    (store : Store) (sessionTid : Option String) (freshId : String)
    (req : ChatRequest) : Store × Option String × ChatResponse :=
  let user_message := pyStrip (req.message.getD "")
  let tid := chooseThreadId req.thread_id sessionTid freshId
  if user_message = "" then
    (store, tid.1, ⟨false, none, none, none, some "No message provided", 400⟩)
  else
    let res := engine store tid.2 user_message
    match res.2.getLast? with
    | some last =>
        (res.1, tid.1,
         ⟨true, some last.content, some tid.2,
          dictGet (stateDict res.2) "discovered_username", none, 200⟩)
    | none =>
        (res.1, tid.1,
         ⟨false, none, none, none, some "list index out of range", 500⟩)

/-- The JSON body (plus HTTP status) of the `clear_thread` route. -/
structure ClearResponse where
  success : Bool
  message : String
  status : Nat
deriving DecidableEq, Repr

/-- `clear_thread` (app_flask lines 158-164): unconditionally returns the
fixed "not supported" body with HTTP 501 and touches no state; modelled
state-passing over the store to make "history untouched" expressible. -/
def clear_thread (store : Store) (thread_id : String) : Store × ClearResponse :=
  (store,
   ⟨false, "Thread clearing not supported. Create a new thread instead.", 501⟩)

/-- `run_async`'s wait bound (app_flask line 38): `future.result(timeout=60)`.
The real value is 60 seconds; the trailing comment says "30 second
timeout". -/
def RUN_ASYNC_TIMEOUT : Nat := 60

/-- What the caller of the Execution Bridge observes. -/
inductive BridgeResult (α : Type) where
  | ok (a : α)
  | timeoutError
deriving DecidableEq

/-- `run_async` (app_flask lines 34-38) modelled on wall-clock duration:
the caller blocks on the future's result slot for at most
`RUN_ASYNC_TIMEOUT` seconds; work finishing within the bound delivers its
result, work still running at the bound raises a timeout failure to the
caller (the work itself is not cancelled). -/
def run_async {α : Type} (duration : Nat) (result : α) : BridgeResult α :=
  if duration ≤ RUN_ASYNC_TIMEOUT then BridgeResult.ok result
  else BridgeResult.timeoutError

/-! ## Reducer lemmas -/

/-- Upserting a message whose id is fresh is exactly an append. -/
theorem upsertOne_fresh (l : List Message) (m : Message)
    (h : ∀ x ∈ l, x.id ≠ m.id) : upsertOne l m = l ++ [m] := by
  have hany : l.any (fun x => x.id = m.id) = false := by
    rw [List.any_eq_false]
    intro x hx
    simp [h x hx]
  simp [upsertOne, hany]

/-- Upserting never shrinks the list (replacement keeps the length, the
fresh case appends). -/
theorem upsertOne_length (l : List Message) (m : Message) :
    l.length ≤ (upsertOne l m).length := by
  unfold upsertOne
  split
  · simp
  · simp

/-- `add_messages` never shrinks the list. -/
theorem add_messages_length (r l : List Message) :
    l.length ≤ (add_messages l r).length := by
  induction r generalizing l with
  | nil => simp [add_messages]
  | cons m rest ih =>
    calc l.length ≤ (upsertOne l m).length := upsertOne_length l m
      _ ≤ (add_messages (upsertOne l m) rest).length := ih (upsertOne l m)
      _ = (add_messages l (m :: rest)).length := rfl

/-- Merging a batch of messages whose ids are fresh and pairwise distinct
is exactly an append of the whole batch. -/
theorem add_messages_fresh :
    ∀ (r l : List Message),
      (∀ m ∈ r, ∀ x ∈ l, x.id ≠ m.id) →
      r.Pairwise (fun a b => a.id ≠ b.id) →
      add_messages l r = l ++ r := by
  intro r
  induction r with
  | nil =>
    intro l _ _
    simp [add_messages]
  | cons m rest ih =>
    intro l hfresh hdist
    have h1 : upsertOne l m = l ++ [m] :=
      upsertOne_fresh l m (fun x hx => hfresh m (by simp) x hx)
    have hpair := List.pairwise_cons.mp hdist
    have hrest : ∀ m2 ∈ rest, ∀ x ∈ l ++ [m], x.id ≠ m2.id := by
      intro m2 hm2 x hx
      rcases List.mem_append.mp hx with hxl | hxm
      · exact hfresh m2 (by simp [hm2]) x hxl
      · have hxe : x = m := by simpa using hxm
        rw [hxe]
        exact hpair.1 m2 hm2
    calc add_messages l (m :: rest) = add_messages (upsertOne l m) rest := rfl
      _ = add_messages (l ++ [m]) rest := by rw [h1]
      _ = (l ++ [m]) ++ rest := ih (l ++ [m]) hrest hpair.2
      _ = l ++ m :: rest := by simp

/-- Every tool-result message's id is at least the starting fresh id. -/
theorem toolResults_id_ge (registry : ToolCall → String) :
    ∀ (tcs : List ToolCall) (s : Nat) (m : Message),
      m ∈ toolResults registry s tcs → s ≤ m.id := by
  intro tcs
  induction tcs with
  | nil =>
    intro s m hm
    simp [toolResults] at hm
  | cons tc rest ih =>
    intro s m hm
    simp only [toolResults, List.mem_cons] at hm
    rcases hm with hm | hm
    · rw [hm]
    · have := ih (s + 1) m hm
      omega

/-- Every tool-result message's id is below start + number of calls. -/
theorem toolResults_id_lt (registry : ToolCall → String) :
    ∀ (tcs : List ToolCall) (s : Nat) (m : Message),
      m ∈ toolResults registry s tcs → m.id < s + tcs.length := by
  intro tcs
  induction tcs with
  | nil =>
    intro s m hm
    simp [toolResults] at hm
  | cons tc rest ih =>
    intro s m hm
    simp only [toolResults, List.mem_cons] at hm
    rcases hm with hm | hm
    · rw [hm]
      simp
    · have := ih (s + 1) m hm
      simp only [List.length_cons]
      omega

/-- Tool-result messages carry pairwise distinct ids. -/
theorem toolResults_pairwise (registry : ToolCall → String) :
    ∀ (tcs : List ToolCall) (s : Nat),
      (toolResults registry s tcs).Pairwise (fun a b => a.id ≠ b.id) := by
  intro tcs
  induction tcs with
  | nil =>
    intro s
    simp [toolResults]
  | cons tc rest ih =>
    intro s
    rw [toolResults, List.pairwise_cons]
    constructor
    · intro m hm
      have := toolResults_id_ge registry rest (s + 1) m hm
      simp only
      omega
    · exact ih (s + 1)

/-! ## Engine step lemmas -/

/-- One graph transition only ever appends messages at the end, preserves
well-formedness, and never lowers the fresh-id counter. -/
theorem graphStep_extends (llm : List Message → LLMOut)
    (registry : ToolCall → String) (c : EngineConfig) (h : wf c) :
    (∃ t, (graphStep llm registry c).msgs = c.msgs ++ t)
    ∧ wf (graphStep llm registry c) := by
  rcases c with ⟨msgs, nid, node⟩
  replace h : ∀ m ∈ msgs, m.id < nid := h
  cases node with
  | chat =>
    have hfresh : ∀ x ∈ msgs, x.id ≠ nid := by
      intro x hx
      have := h x hx
      omega
    have happ :
        add_messages msgs
            [⟨nid, Role.assistant, (llm (SYSTEM_PROMPT :: msgs)).content,
              (llm (SYSTEM_PROMPT :: msgs)).tool_calls⟩]
          = msgs ++
            [⟨nid, Role.assistant, (llm (SYSTEM_PROMPT :: msgs)).content,
              (llm (SYSTEM_PROMPT :: msgs)).tool_calls⟩] := by
      apply add_messages_fresh
      · intro m hm x hx
        have hms : m = ⟨nid, Role.assistant, (llm (SYSTEM_PROMPT :: msgs)).content,
            (llm (SYSTEM_PROMPT :: msgs)).tool_calls⟩ := by simpa using hm
        rw [hms]
        exact hfresh x hx
      · simp
    constructor
    · exact ⟨_, happ⟩
    · intro m hm
      show m.id < nid + 1
      have hm2 : m ∈ add_messages msgs
          [⟨nid, Role.assistant, (llm (SYSTEM_PROMPT :: msgs)).content,
            (llm (SYSTEM_PROMPT :: msgs)).tool_calls⟩] := hm
      rw [happ] at hm2
      rcases List.mem_append.mp hm2 with hml | hmr
      · have := h m hml
        omega
      · have hms : m = ⟨nid, Role.assistant, (llm (SYSTEM_PROMPT :: msgs)).content,
            (llm (SYSTEM_PROMPT :: msgs)).tool_calls⟩ := by simpa using hmr
        rw [hms]
        simp
  | tools =>
    cases hlast : msgs.getLast? with
    | none =>
      constructor
      · exact ⟨[], by simp [graphStep, toolsStep, hlast]⟩
      · intro m hm
        simp only [graphStep, toolsStep, hlast] at hm ⊢
        exact h m hm
    | some last =>
      have happ :
          add_messages msgs (toolResults registry nid last.tool_calls)
            = msgs ++ toolResults registry nid last.tool_calls := by
        apply add_messages_fresh
        · intro m hm x hx
          have h1 := toolResults_id_ge registry last.tool_calls nid m hm
          have h2 := h x hx
          omega
        · exact toolResults_pairwise registry last.tool_calls nid
      constructor
      · refine ⟨toolResults registry nid last.tool_calls, ?_⟩
        show (toolsStep registry ⟨msgs, nid, Node.tools⟩).msgs = msgs ++ _
        simp only [toolsStep, hlast]
        exact happ
      · intro m hm
        have hm2 : m ∈ (toolsStep registry ⟨msgs, nid, Node.tools⟩).msgs := hm
        have hlt : m.id < (toolsStep registry ⟨msgs, nid, Node.tools⟩).nextId := by
          simp only [toolsStep, hlast] at hm2 ⊢
          rw [happ] at hm2
          rcases List.mem_append.mp hm2 with hml | hmr
          · have := h m hml
            omega
          · have := toolResults_id_lt registry last.tool_calls nid m hmr
            omega
        exact hlt
  | done =>
    exact ⟨⟨[], by simp [graphStep]⟩, h⟩

/-- Iterating graph transitions only appends, preserving wf. -/
theorem graphIter_extends (llm : List Message → LLMOut)
    (registry : ToolCall → String) (n : Nat) (c : EngineConfig) (h : wf c) :
    (∃ t, ((graphStep llm registry)^[n] c).msgs = c.msgs ++ t)
    ∧ wf ((graphStep llm registry)^[n] c) := by
  induction n with
  | zero => exact ⟨⟨[], by simp⟩, h⟩
  | succ k ih =>
    rcases ih with ⟨⟨t, ht⟩, hwf⟩
    rcases graphStep_extends llm registry _ hwf with ⟨⟨t2, ht2⟩, hwf2⟩
    rw [Function.iterate_succ_apply']
    refine ⟨⟨t ++ t2, ?_⟩, hwf2⟩
    rw [ht2, ht, List.append_assoc]

/-- `startStep` appends the user message and preserves wf. -/
theorem startStep_extends (u : String) (c : EngineConfig) (h : wf c) :
    (∃ t, (startStep u c).msgs = c.msgs ++ t) ∧ wf (startStep u c) := by
  rcases c with ⟨msgs, nid, node⟩
  replace h : ∀ m ∈ msgs, m.id < nid := h
  have hfresh : ∀ x ∈ msgs, x.id ≠ nid := by
    intro x hx
    have := h x hx
    omega
  have happ : add_messages msgs [⟨nid, Role.user, u, []⟩]
      = msgs ++ [⟨nid, Role.user, u, []⟩] := by
    apply add_messages_fresh
    · intro m hm x hx
      have hms : m = ⟨nid, Role.user, u, []⟩ := by simpa using hm
      rw [hms]
      exact hfresh x hx
    · simp
  constructor
  · exact ⟨_, happ⟩
  · intro m hm
    show m.id < nid + 1
    have hm2 : m ∈ add_messages msgs [⟨nid, Role.user, u, []⟩] := hm
    rw [happ] at hm2
    rcases List.mem_append.mp hm2 with hml | hmr
    · have := h m hml
      omega
    · have hms : m = ⟨nid, Role.user, u, []⟩ := by simpa using hmr
      rw [hms]
      simp

/-- One whole `submit` run only appends messages, preserving wf. -/
theorem submitRun_extends (llm : List Message → LLMOut)
    (registry : ToolCall → String) (u : String) (n : Nat) (c : EngineConfig)
    (h : wf c) :
    (∃ t, (submitRun llm registry u n c).msgs = c.msgs ++ t)
    ∧ wf (submitRun llm registry u n c) := by
  rcases startStep_extends u c h with ⟨⟨t1, ht1⟩, hwf1⟩
  rcases graphIter_extends llm registry n (startStep u c) hwf1 with
    ⟨⟨t2, ht2⟩, hwf2⟩
  refine ⟨⟨t1 ++ t2, ?_⟩, hwf2⟩
  show ((graphStep llm registry)^[n] (startStep u c)).msgs = _
  rw [ht2, ht1, List.append_assoc]

/-! ## Small helper lemmas -/

/-- The last element of `l ++ [m]` is `m`. -/
theorem getLast?_append_one (l : List Message) (m : Message) :
    (l ++ [m]).getLast? = some m := by
  simp

/-- Looking up `discovered_username` in the engine's result dict (whose
only key is `messages`) yields `None`. -/
theorem dictGet_username_none (msgs : List Message) :
    dictGet (stateDict msgs) "discovered_username" = none := rfl

/-- The divergence run starts as one user message at node `chat_node`. -/
theorem loopStart_eq :
    loopStart = ⟨[⟨0, Role.user, "hi", []⟩], 1, Node.chat⟩ := rfl

/-- The divergence invariant holds initially. -/
theorem loopInv_start : loopInv 0 loopStart := by
  rw [loopStart_eq]
  refine ⟨?_, rfl, Or.inl rfl⟩
  intro m hm
  have hme : m = ⟨0, Role.user, "hi", []⟩ := by simpa using hm
  rw [hme]
  decide

/-- The divergence invariant is preserved by every graph transition. -/
theorem loopInv_step (n : Nat) (c : EngineConfig) (h : loopInv n c) :
    loopInv (n + 1) (graphStep llmLoop regLoop c) := by
  obtain ⟨hwf, hlen, hnode⟩ := h
  rcases c with ⟨msgs, nid, node⟩
  replace hwf : ∀ m ∈ msgs, m.id < nid := hwf
  replace hlen : msgs.length = n + 1 := hlen
  rcases hnode with hchat | ⟨htool, last, hlast, hrole, hcalls⟩
  · replace hchat : node = Node.chat := hchat
    subst hchat
    have hfresh : ∀ m ∈ [(⟨nid, Role.assistant, "", [⟨"t", "\x7b\x7d"⟩]⟩ : Message)],
        ∀ x ∈ msgs, x.id ≠ m.id := by
      intro m hm x hx
      have hme : m = ⟨nid, Role.assistant, "", [⟨"t", "\x7b\x7d"⟩]⟩ := by
        simpa using hm
      rw [hme]
      show x.id ≠ nid
      have := hwf x hx
      omega
    have happ :
        add_messages msgs [⟨nid, Role.assistant, "", [⟨"t", "\x7b\x7d"⟩]⟩]
          = msgs ++ [⟨nid, Role.assistant, "", [⟨"t", "\x7b\x7d"⟩]⟩] :=
      add_messages_fresh _ msgs hfresh (by simp)
    refine ⟨?_, ?_, ?_⟩
    · intro m hm
      show m.id < nid + 1
      have hm2 : m ∈ add_messages msgs
          [⟨nid, Role.assistant, "", [⟨"t", "\x7b\x7d"⟩]⟩] := hm
      rw [happ] at hm2
      rcases List.mem_append.mp hm2 with hml | hmr
      · have := hwf m hml
        omega
      · have hme : m = ⟨nid, Role.assistant, "", [⟨"t", "\x7b\x7d"⟩]⟩ := by
          simpa using hmr
        rw [hme]
        simp
    · show (add_messages msgs
          [⟨nid, Role.assistant, "", [⟨"t", "\x7b\x7d"⟩]⟩]).length = n + 1 + 1
      rw [happ]
      simp [hlen]
    · right
      refine ⟨?_, ⟨nid, Role.assistant, "", [⟨"t", "\x7b\x7d"⟩]⟩, ?_, rfl, rfl⟩
      · show route_after_chat (add_messages msgs
            [⟨nid, Role.assistant, "", [⟨"t", "\x7b\x7d"⟩]⟩]) = Node.tools
        rw [happ]
        unfold route_after_chat
        rw [getLast?_append_one]
        simp
      · show (add_messages msgs
            [⟨nid, Role.assistant, "", [⟨"t", "\x7b\x7d"⟩]⟩]).getLast? = some _
        rw [happ, getLast?_append_one]
  · replace htool : node = Node.tools := htool
    subst htool
    replace hlast : msgs.getLast? = some last := hlast
    have hstep : graphStep llmLoop regLoop ⟨msgs, nid, Node.tools⟩
        = ⟨add_messages msgs (toolResults regLoop nid last.tool_calls),
           nid + last.tool_calls.length, Node.chat⟩ := by
      simp only [graphStep, toolsStep, hlast]
    rw [hstep, hcalls]
    have hfresh2 : ∀ m ∈ toolResults regLoop nid [(⟨"t", "\x7b\x7d"⟩ : ToolCall)],
        ∀ x ∈ msgs, x.id ≠ m.id := by
      intro m hm x hx
      have h1 := toolResults_id_ge regLoop _ nid m hm
      have h2 := hwf x hx
      omega
    have happ :
        add_messages msgs (toolResults regLoop nid [(⟨"t", "\x7b\x7d"⟩ : ToolCall)])
          = msgs ++ toolResults regLoop nid [(⟨"t", "\x7b\x7d"⟩ : ToolCall)] :=
      add_messages_fresh _ msgs hfresh2 (toolResults_pairwise regLoop _ nid)
    refine ⟨?_, ?_, Or.inl rfl⟩
    · intro m hm
      show m.id < nid + 1
      have hm2 : m ∈ add_messages msgs
          (toolResults regLoop nid [(⟨"t", "\x7b\x7d"⟩ : ToolCall)]) := hm
      rw [happ] at hm2
      rcases List.mem_append.mp hm2 with hml | hmr
      · have := hwf m hml
        omega
      · have h3 : m.id < nid + 1 := by
          simpa using toolResults_id_lt regLoop _ nid m hmr
        exact h3
    · show (add_messages msgs
          (toolResults regLoop nid [(⟨"t", "\x7b\x7d"⟩ : ToolCall)])).length
        = n + 1 + 1
      rw [happ]
      show (msgs ++ [(⟨nid, Role.tool, "ok", []⟩ : Message)]).length = n + 1 + 1
      simp [hlen]

/-! ## Claim theorems -/

/-- C1 counterexample: a persisted sequence holding one user message and
one tool-result message.  The code returns both entries (the tool message
relabelled "assistant"); the claim says the tool message does not appear
in the returned sequence. -/
theorem get_history_includes_tool_messages :
    get_history
        [⟨0, Role.user, "hi", []⟩, ⟨1, Role.tool, "tool output", []⟩]
      = [(Role.user, "hi"), (Role.assistant, "tool output")]
    ∧ get_history
        [⟨0, Role.user, "hi", []⟩, ⟨1, Role.tool, "tool output", []⟩]
      ≠ history_spec
        [⟨0, Role.user, "hi", []⟩, ⟨1, Role.tool, "tool output", []⟩] := by
  constructor
  · rfl
  · decide

/-- C1 (amended): `history(thread_id)` returns one entry per persisted
message, in conversation order: entry i carries the content of message i
and role user exactly when that message is a `HumanMessage`, assistant
otherwise — so tool and system messages appear, relabelled as assistant,
rather than being filtered out. -/
theorem get_history_relabels_in_place (msgs : List Message) (i : Nat) :
    (get_history msgs).length = msgs.length
    ∧ (get_history msgs).get? i
        = (msgs.get? i).map (fun m =>
            (if m.role = Role.user then Role.user else Role.assistant,
             m.content)) := by
  constructor
  · simp [get_history]
  · simp [get_history]

/-- C2: the claim (and spec) require the `CHAT ⇄ TOOL_EXEC` loop to be
bounded, failing with a `LoopNotConvergedError` beyond the bound.  The
graph as wired in the source (chat_node ⇄ tools, backend lines 187-193)
enforces no bound: with a reasoning service whose every response requests
one more tool call, the engine never reaches `END` — after any number `n`
of transitions it is still running and has appended one message per
transition.  This evaluates the code at the failing input and exhibits the
missing bound (code_bug). -/
theorem tool_loop_never_converges (n : Nat) :
    ((graphStep llmLoop regLoop)^[n] loopStart).node ≠ Node.done
    ∧ ((graphStep llmLoop regLoop)^[n] loopStart).msgs.length = n + 1 := by
  have hinv : ∀ k, loopInv k ((graphStep llmLoop regLoop)^[k] loopStart) := by
    intro k
    induction k with
    | zero => simpa using loopInv_start
    | succ j ih =>
      rw [Function.iterate_succ_apply']
      exact loopInv_step j _ ih
  obtain ⟨hwf, hlen, hnode⟩ := hinv n
  refine ⟨?_, hlen⟩
  rcases hnode with hchat | ⟨htool, _⟩
  · rw [hchat]
    decide
  · rw [htool]
    decide

/-- C3: `delete_thread` (the `clear_thread` route) always returns the
structured "not supported" failure (success = false, HTTP 501, the fixed
message) and never mutates any state: the store — hence `history` of every
thread — is unchanged by the call. -/
theorem clear_thread_unsupported_and_pure (store : Store) (tid t : String) :
    (clear_thread store tid).2.success = false
    ∧ (clear_thread store tid).2.status = 501
    ∧ (clear_thread store tid).2.message
        = "Thread clearing not supported. Create a new thread instead."
    ∧ (clear_thread store tid).1 = store
    ∧ get_history ((clear_thread store tid).1 t) = get_history (store t) :=
  ⟨rfl, rfl, rfl, rfl, rfl⟩

/-- C4: the persisted message sequence is append-only.  For any
well-formed starting state, two successive `submit` runs (each: append the
user message, then any number of graph transitions, with any reasoning
service and any capability registry) each leave the previous message list
as an unchanged initial segment of the new one, so the length of
`history(thread_id)` is non-decreasing across successive `submit` calls. -/
theorem submit_history_monotone (llm : List Message → LLMOut)
    (registry : ToolCall → String) (u1 u2 : String) (n1 n2 : Nat)
    (c : EngineConfig) (h : wf c) :
    (∃ t, (submitRun llm registry u1 n1 c).msgs = c.msgs ++ t)
    ∧ (∃ t, (submitRun llm registry u2 n2 (submitRun llm registry u1 n1 c)).msgs
          = (submitRun llm registry u1 n1 c).msgs ++ t)
    ∧ (get_history c.msgs).length
        ≤ (get_history (submitRun llm registry u1 n1 c).msgs).length
    ∧ (get_history (submitRun llm registry u1 n1 c).msgs).length
        ≤ (get_history
            (submitRun llm registry u2 n2 (submitRun llm registry u1 n1 c)).msgs).length := by
  obtain ⟨⟨t1, ht1⟩, hwf1⟩ := submitRun_extends llm registry u1 n1 c h
  obtain ⟨⟨t2, ht2⟩, hwf2⟩ := submitRun_extends llm registry u2 n2 _ hwf1
  refine ⟨⟨t1, ht1⟩, ⟨t2, ht2⟩, ?_, ?_⟩
  · rw [ht1]
    simp [get_history]
  · rw [ht2]
    simp [get_history]

/-- A reasoning service that always answers without tool calls (used to
instantiate witnesses). -/
def llmConst : List Message → LLMOut := fun _ => ⟨"ok", []⟩

/-- A constant capability registry (used to instantiate witnesses). -/
def regConst : ToolCall → String := fun _ => "r"

/-- The empty engine configuration (used to instantiate witnesses). -/
def cfg0 : EngineConfig := ⟨[], 0, Node.done⟩

/-- Witness for C4 at a concrete input: two submits ("hello", then
"again"), one transition each, starting from the empty state. -/
theorem submit_history_monotone_witness :
    wf cfg0
    ∧ ((∃ t, (submitRun llmConst regConst "hello" 1 cfg0).msgs = cfg0.msgs ++ t)
       ∧ (∃ t, (submitRun llmConst regConst "again" 1
              (submitRun llmConst regConst "hello" 1 cfg0)).msgs
            = (submitRun llmConst regConst "hello" 1 cfg0).msgs ++ t)
       ∧ (get_history cfg0.msgs).length
           ≤ (get_history (submitRun llmConst regConst "hello" 1 cfg0).msgs).length
       ∧ (get_history (submitRun llmConst regConst "hello" 1 cfg0).msgs).length
           ≤ (get_history (submitRun llmConst regConst "again" 1
               (submitRun llmConst regConst "hello" 1 cfg0)).msgs).length) := by
  have hwf : wf cfg0 := by
    intro m hm
    exact absurd hm (List.not_mem_nil m)
  exact ⟨hwf, submit_history_monotone llmConst regConst "hello" "again" 1 1 cfg0 hwf⟩

/-- C5: a request whose (stripped) message text is empty or missing is
rejected with the 400 "No message provided" failure before entering the
engine: the response does not depend on the engine at all, and the store —
every thread's history — is unchanged. -/
theorem empty_message_rejected
    (engine engine2 : Store → String → String → Store × List Message)
    (store : Store) (sessionTid : Option String) (freshId : String)
    (req : ChatRequest) (h : pyStrip (req.message.getD "") = "") :
    chat_handler engine store sessionTid freshId req
      = chat_handler engine2 store sessionTid freshId req
    ∧ (chat_handler engine store sessionTid freshId req).1 = store
    ∧ (chat_handler engine store sessionTid freshId req).2.2.success = false
    ∧ (chat_handler engine store sessionTid freshId req).2.2.status = 400
    ∧ (chat_handler engine store sessionTid freshId req).2.2.error
        = some "No message provided" := by
  refine ⟨?_, ?_, ?_, ?_, ?_⟩ <;> simp [chat_handler, h]

/-- Witness for C5 at a concrete input: a request with no message field at
all, against two different engines. -/
theorem empty_message_rejected_witness :
    pyStrip (((⟨none, none⟩ : ChatRequest)).message.getD "") = ""
    ∧ (chat_handler (fun s _ _ => (s, []))
          (fun _ => []) none "f" ⟨none, none⟩
        = chat_handler (fun s _ _ => (s, [⟨0, Role.assistant, "x", []⟩]))
            (fun _ => []) none "f" ⟨none, none⟩
       ∧ (chat_handler (fun s _ _ => (s, []))
            (fun _ => []) none "f" ⟨none, none⟩).1 = (fun _ => [])
       ∧ (chat_handler (fun s _ _ => (s, []))
            (fun _ => []) none "f" ⟨none, none⟩).2.2.success = false
       ∧ (chat_handler (fun s _ _ => (s, []))
            (fun _ => []) none "f" ⟨none, none⟩).2.2.status = 400
       ∧ (chat_handler (fun s _ _ => (s, []))
            (fun _ => []) none "f" ⟨none, none⟩).2.2.error
           = some "No message provided") := by
  have h : pyStrip (((⟨none, none⟩ : ChatRequest)).message.getD "") = "" := by
    decide
  exact ⟨h, empty_message_rejected (fun s _ _ => (s, []))
    (fun s _ _ => (s, [⟨0, Role.assistant, "x", []⟩]))
    (fun _ => []) none "f" ⟨none, none⟩ h⟩

/-- C6: on a well-formed state, the `chat_node` transition invokes the
reasoning service with the system prompt prepended to the full persisted
history, appends exactly that one response message (as an assistant
message with the service's content and pending calls), and moves to
`tools` exactly when the response carries at least one pending tool call,
to `END` exactly when it carries none; the `tools` transition always moves
back to `chat_node`. -/
theorem chat_and_tools_transitions (llm : List Message → LLMOut)
    (registry : ToolCall → String) (c : EngineConfig) (h : wf c) :
    (c.node = Node.chat →
      (graphStep llm registry c).msgs
          = c.msgs ++ [⟨c.nextId, Role.assistant,
              (llm (SYSTEM_PROMPT :: c.msgs)).content,
              (llm (SYSTEM_PROMPT :: c.msgs)).tool_calls⟩]
      ∧ ((graphStep llm registry c).node = Node.tools
          ↔ (llm (SYSTEM_PROMPT :: c.msgs)).tool_calls ≠ [])
      ∧ ((graphStep llm registry c).node = Node.done
          ↔ (llm (SYSTEM_PROMPT :: c.msgs)).tool_calls = []))
    ∧ (c.node = Node.tools → (graphStep llm registry c).node = Node.chat) := by
  rcases c with ⟨msgs, nid, node⟩
  replace h : ∀ m ∈ msgs, m.id < nid := h
  constructor
  · intro hnode
    replace hnode : node = Node.chat := hnode
    subst hnode
    have hfresh : ∀ m ∈ [(⟨nid, Role.assistant,
          (llm (SYSTEM_PROMPT :: msgs)).content,
          (llm (SYSTEM_PROMPT :: msgs)).tool_calls⟩ : Message)],
        ∀ x ∈ msgs, x.id ≠ m.id := by
      intro m hm x hx
      have hme : m = ⟨nid, Role.assistant,
          (llm (SYSTEM_PROMPT :: msgs)).content,
          (llm (SYSTEM_PROMPT :: msgs)).tool_calls⟩ := by simpa using hm
      rw [hme]
      show x.id ≠ nid
      have := h x hx
      omega
    have happ : add_messages msgs
        [⟨nid, Role.assistant, (llm (SYSTEM_PROMPT :: msgs)).content,
          (llm (SYSTEM_PROMPT :: msgs)).tool_calls⟩]
        = msgs ++ [⟨nid, Role.assistant, (llm (SYSTEM_PROMPT :: msgs)).content,
            (llm (SYSTEM_PROMPT :: msgs)).tool_calls⟩] :=
      add_messages_fresh _ msgs hfresh (by simp)
    have hroute : route_after_chat (msgs ++
        [⟨nid, Role.assistant, (llm (SYSTEM_PROMPT :: msgs)).content,
          (llm (SYSTEM_PROMPT :: msgs)).tool_calls⟩])
        = if (llm (SYSTEM_PROMPT :: msgs)).tool_calls ≠ [] then Node.tools
          else Node.done := by
      unfold route_after_chat
      rw [getLast?_append_one]
      simp
    have hnode2 : (graphStep llm registry ⟨msgs, nid, Node.chat⟩).node
        = if (llm (SYSTEM_PROMPT :: msgs)).tool_calls ≠ [] then Node.tools
          else Node.done := by
      show route_after_chat (add_messages msgs _) = _
      rw [happ]
      exact hroute
    refine ⟨happ, ?_, ?_⟩
    · rw [hnode2]
      by_cases hc : (llm (SYSTEM_PROMPT :: msgs)).tool_calls = [] <;>
        simp [hc]
    · rw [hnode2]
      by_cases hc : (llm (SYSTEM_PROMPT :: msgs)).tool_calls = [] <;>
        simp [hc]
  · intro hnode
    replace hnode : node = Node.tools := hnode
    subst hnode
    show (toolsStep registry ⟨msgs, nid, Node.tools⟩).node = Node.chat
    unfold toolsStep
    cases hl : msgs.getLast? <;> simp [hl]

/-- The one-user-message configuration (used to instantiate witnesses). -/
def cfg1 : EngineConfig := ⟨[⟨0, Role.user, "hi", []⟩], 1, Node.chat⟩

/-- Witness for C6 at a concrete input: the looping reasoning service on
the one-user-message state at `chat_node`. -/
theorem chat_and_tools_transitions_witness :
    wf cfg1
    ∧ ((cfg1.node = Node.chat →
        (graphStep llmLoop regLoop cfg1).msgs
            = cfg1.msgs ++ [⟨cfg1.nextId, Role.assistant,
                (llmLoop (SYSTEM_PROMPT :: cfg1.msgs)).content,
                (llmLoop (SYSTEM_PROMPT :: cfg1.msgs)).tool_calls⟩]
        ∧ ((graphStep llmLoop regLoop cfg1).node = Node.tools
            ↔ (llmLoop (SYSTEM_PROMPT :: cfg1.msgs)).tool_calls ≠ [])
        ∧ ((graphStep llmLoop regLoop cfg1).node = Node.done
            ↔ (llmLoop (SYSTEM_PROMPT :: cfg1.msgs)).tool_calls = []))
       ∧ (cfg1.node = Node.tools →
            (graphStep llmLoop regLoop cfg1).node = Node.chat)) := by
  have hwf : wf cfg1 := by
    intro m hm
    have hme : m = ⟨0, Role.user, "hi", []⟩ := by simpa [cfg1] using hm
    rw [hme]
    decide
  exact ⟨hwf, chat_and_tools_transitions llmLoop regLoop cfg1 hwf⟩

/-- C7: the Execution Bridge wait (`run_async`) blocks with the single
configured timeout of 60 seconds — the source's real value, as the claim
says (the source comment reads "30 second timeout") — delivering the
result within the bound and returning a timeout failure beyond it. -/
theorem run_async_timeout_is_sixty :
    RUN_ASYNC_TIMEOUT = 60
    ∧ (∀ (α : Type) (d : Nat) (r : α),
        d ≤ RUN_ASYNC_TIMEOUT → run_async d r = BridgeResult.ok r)
    ∧ (∀ (α : Type) (d : Nat) (r : α),
        RUN_ASYNC_TIMEOUT < d → run_async d r = BridgeResult.timeoutError) := by
  refine ⟨rfl, ?_, ?_⟩
  · intro α d r hd
    simp [run_async, hd]
  · intro α d r hd
    unfold run_async
    rw [if_neg (Nat.not_le.mpr hd)]

/-- Witness for C7 at concrete inputs: 3 seconds succeeds, 61 seconds
times out. -/
theorem run_async_timeout_witness :
    ((3 : Nat) ≤ RUN_ASYNC_TIMEOUT
      ∧ run_async 3 "done" = BridgeResult.ok "done")
    ∧ (RUN_ASYNC_TIMEOUT < 61
      ∧ run_async 61 "late" = BridgeResult.timeoutError) :=
  ⟨⟨by decide, run_async_timeout_is_sixty.2.1 String 3 "done" (by decide)⟩,
   ⟨by decide, run_async_timeout_is_sixty.2.2 String 61 "late" (by decide)⟩⟩

/-- C8 counterexample: a request without thread_id arriving in a session
that already holds thread id "t0".  The freshly minted candidate "fresh-1"
is NOT used: the previously assigned "t0" is reused and returned — no new
identifier is minted for that call. -/
theorem absent_thread_id_reuses_session :
    chooseThreadId none (some "t0") "fresh-1" = (some "t0", "t0")
    ∧ (chat_handler (fun s _ _ => (s, [⟨0, Role.assistant, "ok", []⟩]))
          (fun _ => []) (some "t0") "fresh-1"
          ⟨some "hello", none⟩).2.2.thread_id = some "t0"
    ∧ "t0" ≠ "fresh-1" := by
  refine ⟨rfl, ?_, by decide⟩
  decide

/-- C8 (amended): when the request's thread_id is absent, the session's
stored thread_id is reused if the session has one; a fresh identifier is
minted (and stored in the session) only when the session has none; the
identifier so chosen is the one returned alongside the assistant text on
success. -/
theorem thread_id_choice (engine : Store → String → String → Store × List Message)
    (store : Store) (sessionTid : Option String) (freshId msgText : String)
    (h : pyStrip msgText ≠ "") :
    (∀ t, sessionTid = some t →
        chooseThreadId none sessionTid freshId = (some t, t))
    ∧ (sessionTid = none →
        chooseThreadId none sessionTid freshId = (some freshId, freshId))
    ∧ ((chat_handler engine store sessionTid freshId
          ⟨some msgText, none⟩).2.2.success = true →
        (chat_handler engine store sessionTid freshId
          ⟨some msgText, none⟩).2.2.thread_id
          = some (chooseThreadId none sessionTid freshId).2) := by
  refine ⟨?_, ?_, ?_⟩
  · intro t ht
    subst ht
    rfl
  · intro ht
    subst ht
    rfl
  · intro hs
    rcases hl : (engine store (chooseThreadId none sessionTid freshId).2
        (pyStrip msgText)).2.getLast? with _ | last
    · simp [chat_handler, h, hl] at hs
    · simp [chat_handler, h, hl]

/-- Witness for C8's amended theorem at a concrete input: session holding
"t0", fresh candidate "f", message "hello". -/
theorem thread_id_choice_witness :
    pyStrip "hello" ≠ ""
    ∧ ((∀ t, (some "t0" : Option String) = some t →
          chooseThreadId none (some "t0") "f" = (some t, t))
       ∧ ((some "t0" : Option String) = none →
          chooseThreadId none (some "t0") "f" = (some "f", "f"))
       ∧ ((chat_handler (fun s _ _ => (s, [⟨0, Role.assistant, "ok", []⟩]))
            (fun _ => []) (some "t0") "f" ⟨some "hello", none⟩).2.2.success = true →
          (chat_handler (fun s _ _ => (s, [⟨0, Role.assistant, "ok", []⟩]))
            (fun _ => []) (some "t0") "f" ⟨some "hello", none⟩).2.2.thread_id
            = some (chooseThreadId none (some "t0") "f").2)) := by
  have h : pyStrip "hello" ≠ "" := by decide
  exact ⟨h, thread_id_choice (fun s _ _ => (s, [⟨0, Role.assistant, "ok", []⟩]))
    (fun _ => []) (some "t0") "f" "hello" h⟩

/-- C10: the engine state carries only a `messages` field, so
`result.get("discovered_username")` is `None` on every call — in
particular the `discovered_username` field of every successful response is
null, for any engine, store, session, and request. -/
theorem discovered_username_always_null
    (engine : Store → String → String → Store × List Message)
    (store : Store) (sessionTid : Option String) (freshId : String)
    (req : ChatRequest) :
    (chat_handler engine store sessionTid freshId req).2.2.discovered_username
      = none := by
  by_cases hm : pyStrip (req.message.getD "") = ""
  · simp [chat_handler, hm]
  · rcases hl : (engine store
        (chooseThreadId req.thread_id sessionTid freshId).2
        (pyStrip (req.message.getD ""))).2.getLast? with _ | last
    · simp [chat_handler, hm, hl]
    · simp [chat_handler, hm, hl, dictGet_username_none]

end MCPChatbot
